import Mathlib

/-!
Shallow embedding of `src/AppData/FilesCleanerApp/app_utils.py`
(class `FilesCleaner`) for verification of the spec's claims.

Modelling conventions:
* File sizes and the cumulative size are exact naturals (the Python code
  uses a float accumulator over integer `os.path.getsize` results, which is
  exact for any realistic size below 2^53; likewise `int(round(x / 1024.0, 0))`
  is the round-half-to-even of the exact rational, captured by `kbOf`).
* The logger (`python_utils.log_system.LogSystem`) is modelled as the list
  of leveled log messages produced by a run, in emission order.  The
  `os.path.relpath` shortening applied to discovery lines is not modelled
  (the full path is logged instead); no claim concerns it.
* Modelled from the spec: `python_utils.prompts.read_char` (not under
  `src/`) "blocks for exactly one raw keystroke ... returns it as a single
  character"; it is modelled as consuming one character from an answer
  stream supplied to the run.
* The filesystem walk (`os.walk`) is an external iterator the code
  consumes; it is modelled as the list of `(root, dirs, files)` triples it
  yields, together with a size oracle for `os.path.getsize`.  `fnmatch`
  is likewise an external library function passed in as an oracle.
* A Python exception raised by the per-target operating function is
  modelled by `Except.error msg` (the `str(err)` of the exception),
  alongside the possibly partially-updated state.
-/

/-- Python `s.endswith(p)`: literal, case-sensitive suffix test on the
character sequence. -/
def strEndsWith (s p : String) : Bool :=
  s.data.drop (s.data.length - p.data.length) == p.data

/-- Python `s.startswith(p)` (used only to model recursive removal below
a directory): literal prefix test on the character sequence. -/
def strStartsWith (s p : String) : Bool :=
  s.data.take p.data.length == p.data

/-- `matchers["endswith"]` from `FilesCleaner.__init__`:
`lambda s: any(s.endswith(p) for p in patterns)`. -/
def endswithMatcher (patterns : List String) (s : String) : Bool :=
  patterns.any (fun p => strEndsWith s p)

/-- The local function `show` in `FilesCleaner.run`: returns the path if it
passes the (possibly negated) matcher, `None` otherwise. -/
def showFn (negate : Bool) (matcher : String → Bool) (path : String) :
    Option String :=
  if negate then (if ¬ matcher path then some path else none)
  else (if matcher path then some path else none)

/-- An entry of the `errors` list built by `FilesCleaner._apply`: a bare
message string in non-confirm mode, a `(func.__name__, target, str(err))`
tuple in confirm mode. -/
inductive ErrRec where
  | plain (msg : String)
  | detailed (funcName : String) (target : String) (msg : String)
deriving DecidableEq

/-- One message accepted by the logger collaborator.  `errorRec` is an
`error`-level message whose payload is an error record (Python logs the
string or the tuple itself). -/
inductive LogMsg where
  | info (s : String)
  | warning (s : String)
  | error (s : String)
  | errorRec (r : ErrRec)
deriving DecidableEq

/-- `answer in {"y", "Y"}`. -/
def isYes (a : Char) : Bool := a = 'y' || a = 'Y'

/-- `answer in {"a", "A"}`. -/
def isAbort (a : Char) : Bool := a = 'a' || a = 'A'

/-- `answer in {"c", "C"}`. -/
def isConfirmAns (a : Char) : Bool := a = 'c' || a = 'C'

instance : DecidableEq (Except String Unit) := fun a b =>
  match a, b with
  | Except.ok x, Except.ok y => isTrue (by cases x; cases y; rfl)
  | Except.error m, Except.error n =>
    if h : m = n then isTrue (by rw [h])
    else isFalse (fun hh => h (by cases hh; rfl))
  | Except.ok _, Except.error _ => isFalse (fun hh => Except.noConfusion hh)
  | Except.error _, Except.ok _ => isFalse (fun hh => Except.noConfusion hh)

/-- Result of the `for target in self.targets` loop of
`FilesCleaner._apply`: final operation state, the success counter `i`, the
`errors` list, the unconsumed tail of the answer stream, and a trace of the
invocations of `func` actually made (target, outcome), in order. -/
structure ApplyLoopOut (σ : Type) where
  fs : σ
  count : Nat
  errors : List ErrRec
  rest : List Char
  attempts : List (String × Except String Unit)
deriving DecidableEq

/-- The `for target in self.targets` loop of `FilesCleaner._apply`.
`fn` is `func.__name__`; `func` maps an operation state and a target to the
new state and the outcome (`Except.error` models a raised exception, which
the loop catches and records).  In confirm mode one answer character is
read per target before acting. -/
def applyGo (fn : String) (func : σ → String → σ × Except String Unit)
    (confirm : Bool) :
    List String → List Char → σ → Nat → List ErrRec →
    List (String × Except String Unit) → ApplyLoopOut σ
  | [], ans, fs, i, errs, att => ⟨fs, i, errs, ans, att⟩
  | t :: ts, ans, fs, i, errs, att =>
    if confirm then
      let a := ans.headD ' '
      let ans1 := ans.tail
      if isYes a then
        match func fs t with
        | (fs1, Except.ok _) =>
          applyGo fn func confirm ts ans1 fs1 (i + 1) errs
            (att ++ [(t, Except.ok ())])
        | (fs1, Except.error m) =>
          applyGo fn func confirm ts ans1 fs1 i
            (errs ++ [ErrRec.detailed fn t m]) (att ++ [(t, Except.error m)])
      else if isAbort a then ⟨fs, i, errs, ans1, att⟩
      else applyGo fn func confirm ts ans1 fs i errs att
    else
      match func fs t with
      | (fs1, Except.ok _) =>
        applyGo fn func confirm ts ans fs1 (i + 1) errs
          (att ++ [(t, Except.ok ())])
      | (fs1, Except.error m) =>
        applyGo fn func confirm ts ans fs1 i
          (errs ++ [ErrRec.plain m]) (att ++ [(t, Except.error m)])

/-- `int(round(n / 1024.0, 0))` for a natural byte count `n`: the exact
round-half-to-even of `n / 1024` (the float computation is exact below
2^53 since 1024 is a power of two). -/
def kbOf (n : Nat) : Nat :=
  if n % 1024 < 512 then n / 1024
  else if 512 < n % 1024 then n / 1024 + 1
  else if n / 1024 % 2 = 0 then n / 1024 else n / 1024 + 1

/-- The success summary string `"**%s %s items (%sK)**"`. -/
def summaryMsg (done : String) (i : Nat) (kb : Nat) : String :=
  "**" ++ done ++ " " ++ toString i ++ " items (" ++ toString kb ++ "K)**"

def errorHeader : String := "**The following errors were found:**"

def noActionMsg : String := "**No action taken**"

/-- The log messages emitted by `FilesCleaner._apply` after its loop: the
summary (or no-action) line, then — note, per the source, *inside* the
`for err in errors` loop — the error-section header before every
recorded error. -/
def reportLogs (done : String) (cumSize : Nat) (i : Nat) (errs : List ErrRec) :
    List LogMsg :=
  (if i ≠ 0 then [LogMsg.info (summaryMsg done i (kbOf cumSize))]
   else [LogMsg.info noActionMsg])
  ++ (if 0 < errs.length then
        (errs.map (fun e => [LogMsg.error errorHeader, LogMsg.errorRec e])).flatten
      else [])

/-- Result of a full `FilesCleaner._apply` call: the loop outcome plus the
messages logged afterwards. -/
structure ApplyOut (σ : Type) where
  fs : σ
  count : Nat
  errors : List ErrRec
  rest : List Char
  attempts : List (String × Except String Unit)
  logs : List LogMsg
deriving DecidableEq

/-- `FilesCleaner._apply`: run the loop over the targets, then report.
`done` is `self.messages[func.__name__][1]`; `cumSize` is the value of
`self.cum_size` at reporting time. -/
def applyModel (fn done : String) (func : σ → String → σ × Except String Unit)
    (confirm : Bool) (cumSize : Nat) (targets : List String) (ans : List Char)
    (fs : σ) : ApplyOut σ :=
  let o := applyGo fn func confirm targets ans fs 0 [] []
  ⟨o.fs, o.count, o.errors, o.rest, o.attempts,
    reportLogs done cumSize o.count o.errors⟩

/-- `os.path.join(root, name)` for the walker-produced names (never
absolute). -/
def pathJoin (root name : String) : String :=
  if root = "" then name
  else if strEndsWith root "/" then root ++ name
  else root ++ "/" ++ name

/-- The inner `visit` function of `FilesCleaner._walk` applied to one name
list of an `os.walk` triple: joins each name to the root, filters through
`func` (the `show` closure), and keeps truthy results paired with their
`os.path.getsize`. -/
def visitModel (f : String → Option String) (getsize : String → Nat)
    (root : String) (names : List String) : List (String × Nat) :=
  names.filterMap (fun t =>
    match f (pathJoin root t) with
    | some obj => if obj = "" then none else some (obj, getsize obj)
    | none => none)

/-- One `(root, dirs, files)` triple yielded by `os.walk`. -/
abbrev WalkTriple := String × List String × List String

/-- `FilesCleaner._walk`: for every walk triple, visit the directory names
then the file names; collect the matched paths with their sizes, in
order. -/
def walkModel (f : String → Option String) (getsize : String → Nat)
    (w : List WalkTriple) : List (String × Nat) :=
  (w.map (fun rt =>
    visitModel f getsize rt.1 rt.2.1 ++ visitModel f getsize rt.1 rt.2.2)).flatten

/-- The discovery log lines of `visit` for one hit list
(`"**%s** %s" % (prefixMarker, path)`). -/
def discoveryLogs (marker : String) (hits : List (String × Nat)) : List LogMsg :=
  hits.map (fun h => LogMsg.info ("**" ++ marker ++ "** " ++ h.1))

/-- The log lines emitted during the walk, in emission order
(per triple: directory hits with marker `+-->`, then file hits with
marker `|-->`). -/
def walkLogsModel (f : String → Option String) (getsize : String → Nat)
    (w : List WalkTriple) : List LogMsg :=
  (w.map (fun rt =>
    discoveryLogs "+-->" (visitModel f getsize rt.1 rt.2.1)
    ++ discoveryLogs "|-->" (visitModel f getsize rt.1 rt.2.2))).flatten

/-- The mutable state of a `FilesCleaner` instance relevant to the claims:
constructor arguments plus `self.targets` and `self.cum_size`. -/
structure Cleaner where
  path : String
  patterns : List String
  negate : Bool
  targets : List String
  cumSize : Nat
deriving DecidableEq

/-- `FilesCleaner.__init__`: `targets = []`, `cum_size = 0.0`. -/
def Cleaner.init (path : String) (patterns : List String) (negate : Bool) :
    Cleaner :=
  ⟨path, patterns, negate, [], 0⟩

/-- The two path-operating methods an action can dispatch to. -/
inductive ActionFunc where
  | delete
  | cleanEndings
deriving DecidableEq

/-- `func.__name__` of each operating method. -/
def funcPyName : ActionFunc → String
  | ActionFunc.delete => "_delete"
  | ActionFunc.cleanEndings => "_clean_endings"

/-- `FilesCleaner.messages`: function name to (question, completed) pair. -/
def messagesTable (fn : String) : String × String :=
  if fn = "_delete" then ("Delete files/folders", "Deleted")
  else if fn = "_clean_endings" then
    ("Convert all Windows endings into Unix endings",
     "Line endings cleaned for")
  else ("", "")

/-- `FilesCleaner.actions`: action name to (operating function, matcher
name); `none` models the `KeyError` of an unknown key. -/
def actionsTable (a : String) : Option (ActionFunc × String) :=
  if a = "endswith_delete" then some (ActionFunc.delete, "endswith")
  else if a = "glob_delete" then some (ActionFunc.delete, "glob")
  else if a = "convert" then some (ActionFunc.cleanEndings, "endswith")
  else none

/-- `FilesCleaner.matchers`: matcher name to predicate (`fnmatchFn` is the
external `fnmatch.fnmatch`).  Only the two keys present in the dict are
ever looked up. -/
def matchersTable (patterns : List String)
    (fnmatchFn : String → String → Bool) (m : String) : String → Bool :=
  if m = "endswith" then endswithMatcher patterns
  else if m = "glob" then fun s => patterns.any (fun p => fnmatchFn s p)
  else fun _ => false

/-- `"**Working inside directory:**\n%s" % path`. -/
def workingDirMsg (path : String) : String :=
  "**Working inside directory:**\n" ++ path

def noResultsMsg : String := "**No results.**"

def cancelledMsg : String := "**Action cancelled.**"

/-- Outcome of one `FilesCleaner.run` call: either a normal return, or an
uncaught `KeyError` escaping from the `self.actions[action]` lookup.  Both
carry the instance state, the operation state, the messages logged up to
that point, and the unconsumed answer stream. -/
inductive RunResult (σ : Type) where
  | ok (c : Cleaner) (fs : σ) (logs : List LogMsg) (rest : List Char)
  | keyError (c : Cleaner) (fs : σ) (logs : List LogMsg) (rest : List Char)
deriving DecidableEq

/-- The instance state carried by a `RunResult`. -/
def RunResult.cleaner : RunResult σ → Cleaner
  | RunResult.ok c _ _ _ => c
  | RunResult.keyError c _ _ _ => c

/-- The log trace carried by a `RunResult`. -/
def RunResult.logs : RunResult σ → List LogMsg
  | RunResult.ok _ _ l _ => l
  | RunResult.keyError _ _ l _ => l

/-- The unconsumed answers carried by a `RunResult`. -/
def RunResult.rest : RunResult σ → List Char
  | RunResult.ok _ _ _ r => r
  | RunResult.keyError _ _ _ r => r

/-- `FilesCleaner.run`: log the working directory, resolve the action
(an unknown name raises `KeyError`), walk (accumulating into
`self.cum_size`), then the bulk-confirmation protocol and the apply
phase.  `funcOf` gives the state semantics of each operating method. -/
def runModel (fnmatchFn : String → String → Bool)
    (funcOf : ActionFunc → σ → String → σ × Except String Unit)
    (getsize : String → Nat) (w : List WalkTriple)
    (c : Cleaner) (action : String) (ans : List Char) (fs : σ) :
    RunResult σ :=
  let wdLog := LogMsg.info (workingDirMsg c.path)
  match actionsTable action with
  | none => RunResult.keyError c fs [wdLog] ans
  | some (af, matcherName) =>
    let fn := funcPyName af
    let done := (messagesTable fn).2
    let matcher := matchersTable c.patterns fnmatchFn matcherName
    let f := showFn c.negate matcher
    let hits := walkModel f getsize w
    let wLogs := walkLogsModel f getsize w
    let results := hits.map Prod.fst
    let c1 : Cleaner := ⟨c.path, c.patterns, c.negate, c.targets,
      c.cumSize + (hits.map Prod.snd).sum⟩
    if results = [] then
      RunResult.ok c1 fs ([wdLog] ++ wLogs ++ [LogMsg.info noResultsMsg]) ans
    else
      let a := ans.headD ' '
      let ans1 := ans.tail
      let c2 : Cleaner := ⟨c1.path, c1.patterns, c1.negate, results, c1.cumSize⟩
      if isYes a then
        let o := applyModel fn done (funcOf af) false c1.cumSize results ans1 fs
        RunResult.ok c2 o.fs ([wdLog] ++ wLogs ++ o.logs) o.rest
      else if isConfirmAns a then
        let o := applyModel fn done (funcOf af) true c1.cumSize results ans1 fs
        RunResult.ok c2 o.fs ([wdLog] ++ wLogs ++ o.logs) o.rest
      else
        RunResult.ok c2 fs ([wdLog] ++ wLogs ++ [LogMsg.warning cancelledMsg])
          ans1

/-- What exists at a path in the delete operation's filesystem snapshot:
a regular file (with size) or a directory. -/
inductive FsEntry where
  | file (size : Nat)
  | dir
deriving DecidableEq

/-- A filesystem snapshot for the delete operation: `none` when nothing
exists at the path. -/
def FsMap := String → Option FsEntry

/-- `os.path.isfile(p)`. -/
def isFileAt (fs : FsMap) (p : String) : Bool :=
  match fs p with
  | some (FsEntry.file _) => true
  | _ => false

/-- `os.path.isdir(p)`. -/
def isDirAt (fs : FsMap) (p : String) : Bool :=
  match fs p with
  | some FsEntry.dir => true
  | _ => false

/-- `os.remove(p)`. -/
def removePath (fs : FsMap) (p : String) : FsMap :=
  fun q => if q = p then none else fs q

/-- `shutil.rmtree(p, onerror=...)`: removes the directory and everything
below it.  The permission-repair retry of `_onerror` is not modelled (no
claim depends on removal failure modes). -/
def rmtreePath (fs : FsMap) (p : String) : FsMap :=
  fun q => if q = p || strStartsWith q (p ++ "/") then none else fs q

/-- `FilesCleaner._delete`: remove a regular file, recursively remove a
directory, and fall through doing nothing (returning normally) when the
path is neither. -/
def deleteOp (fs : FsMap) (p : String) : FsMap × Except String Unit :=
  if isFileAt fs p then (removePath fs p, Except.ok ())
  else if isDirAt fs p then (rmtreePath fs p, Except.ok ())
  else (fs, Except.ok ())

/-- cp1252 decoding of one byte to a Unicode code point; `none` for the
five bytes undefined in cp1252 (0x81, 0x8D, 0x8F, 0x90, 0x9D), on which
Python raises `UnicodeDecodeError`. -/
def cp1252DecodeByte (b : Nat) : Option Nat :=
  if b < 128 then some b
  else if 160 ≤ b ∧ b < 256 then some b
  else if b = 128 then some 0x20AC
  else if b = 130 then some 0x201A
  else if b = 131 then some 0x0192
  else if b = 132 then some 0x201E
  else if b = 133 then some 0x2026
  else if b = 134 then some 0x2020
  else if b = 135 then some 0x2021
  else if b = 136 then some 0x02C6
  else if b = 137 then some 0x2030
  else if b = 138 then some 0x0160
  else if b = 139 then some 0x2039
  else if b = 140 then some 0x0152
  else if b = 142 then some 0x017D
  else if b = 145 then some 0x2018
  else if b = 146 then some 0x2019
  else if b = 147 then some 0x201C
  else if b = 148 then some 0x201D
  else if b = 149 then some 0x2022
  else if b = 150 then some 0x2013
  else if b = 151 then some 0x2014
  else if b = 152 then some 0x02DC
  else if b = 153 then some 0x2122
  else if b = 154 then some 0x0161
  else if b = 155 then some 0x203A
  else if b = 156 then some 0x0153
  else if b = 158 then some 0x017E
  else if b = 159 then some 0x0178
  else none

/-- Decode a whole byte sequence as cp1252 (as `open(path, "r",
encoding="cp1252")` does); fails if any byte is undefined. -/
def cp1252Decode : List Nat → Option (List Nat)
  | [] => some []
  | b :: rest =>
    match cp1252DecodeByte b, cp1252Decode rest with
    | some c, some cs => some (c :: cs)
    | _, _ => none

/-- UTF-8 encoding of one Unicode code point (as writing with
`encoding="UTF-8"` does). -/
def utf8EncodeCp (c : Nat) : List Nat :=
  if c < 0x80 then [c]
  else if c < 0x800 then [0xC0 + c / 64, 0x80 + c % 64]
  else if c < 0x10000 then
    [0xE0 + c / 4096, 0x80 + (c / 64) % 64, 0x80 + c % 64]
  else
    [0xF0 + c / 262144, 0x80 + (c / 4096) % 64, 0x80 + (c / 64) % 64,
     0x80 + c % 64]

/-- UTF-8 encoding of a code-point sequence. -/
def utf8Encode (cs : List Nat) : List Nat :=
  (cs.map utf8EncodeCp).flatten

/-- Universal-newline translation performed by text-mode reading:
`"\r\n"` and lone `"\r"` both become `"\n"`. -/
def translateNewlines : List Nat → List Nat
  | [] => []
  | [c] => [if c = 13 then 10 else c]
  | c :: d :: rest =>
    if c = 13 then
      if d = 10 then 10 :: translateNewlines rest
      else 10 :: translateNewlines (d :: rest)
    else c :: translateNewlines (d :: rest)

/-- `old.readlines()` on already-translated text: split after every
newline, keeping the terminators; a last line without terminator is kept;
empty text yields no lines. -/
def readlinesModel : List Nat → List (List Nat)
  | [] => []
  | c :: rest =>
    if c = 10 then [10] :: readlinesModel rest
    else
      match readlinesModel rest with
      | [] => [[c]]
      | l :: ls => (c :: l) :: ls

/-- Python `str.isspace()` on one code point (the set `str.rstrip()`
strips). -/
def isPySpace (c : Nat) : Bool :=
  (9 ≤ c && c ≤ 13) || (28 ≤ c && c ≤ 31) || c = 32 || c = 0x85 ||
  c = 0xA0 || c = 0x1680 || (0x2000 ≤ c && c ≤ 0x200A) || c = 0x2028 ||
  c = 0x2029 || c = 0x202F || c = 0x205F || c = 0x3000

/-- `l.rstrip()`: drop trailing whitespace. -/
def rstripModel (l : List Nat) : List Nat :=
  (l.reverse.dropWhile isPySpace).reverse

/-- The text transformation of `_clean_endings`:
`"".join(l.rstrip() + "\n" for l in old.readlines())` over the
universal-newline-translated decoded text. -/
def cleanText (cs : List Nat) : List Nat :=
  ((readlinesModel (translateNewlines cs)).map
    (fun l => rstripModel l ++ [10])).flatten

/-- `FilesCleaner._clean_endings` as a transformation of the file's byte
content: decode as cp1252 (raising on undecodable bytes, modelled as
`none`), normalize, write back encoded as UTF-8. -/
def cleanEndings (bs : List Nat) : Option (List Nat) :=
  match cp1252Decode bs with
  | none => none
  | some cs => some (utf8Encode (cleanText cs))

/-- Whether an operation outcome is a success (no exception raised). -/
def exOk : Except String Unit → Bool
  | Except.ok _ => true
  | Except.error _ => false

/-- The error record `_apply` appends for one failing invocation: a bare
string in non-confirm mode, a `(name, target, message)` tuple in confirm
mode. -/
def recordOf (confirm : Bool) (fn : String)
    (te : String × Except String Unit) : Option ErrRec :=
  match te.2 with
  | Except.ok _ => none
  | Except.error m =>
    some (if confirm then ErrRec.detailed fn te.1 m else ErrRec.plain m)

/-- Reference semantics of the non-confirm loop: apply `func` to every
target in order, returning the final state and the full invocation
trace. -/
def runAll (func : σ → String → σ × Except String Unit) (fs : σ) :
    List String → σ × List (String × Except String Unit)
  | [] => (fs, [])
  | t :: ts =>
    let r := func fs t
    let rest := runAll func r.1 ts
    (rest.1, (t, r.2) :: rest.2)

theorem applyGo_shift (fn : String)
    (func : σ → String → σ × Except String Unit) (cm : Bool)
    (ts : List String) (ans : List Char) (fs : σ) (i : Nat)
    (errs : List ErrRec) (att : List (String × Except String Unit)) :
    applyGo fn func cm ts ans fs i errs att =
      ⟨(applyGo fn func cm ts ans fs 0 [] []).fs,
       i + (applyGo fn func cm ts ans fs 0 [] []).count,
       errs ++ (applyGo fn func cm ts ans fs 0 [] []).errors,
       (applyGo fn func cm ts ans fs 0 [] []).rest,
       att ++ (applyGo fn func cm ts ans fs 0 [] []).attempts⟩ := by
  induction ts generalizing ans fs i errs att with
  | nil => simp [applyGo]
  | cons t ts ih =>
    rcases hf : func fs t with ⟨fs1, r⟩
    cases cm with
    | false =>
      cases r with
      | ok u =>
        cases u
        simp only [applyGo, hf, Bool.false_eq_true, if_false]
        rw [ih ans fs1 (i + 1) errs (att ++ [(t, Except.ok ())]),
            ih ans fs1 (0 + 1) [] ([] ++ [(t, Except.ok ())])]
        simp [Nat.add_assoc, Nat.add_comm, Nat.add_left_comm]
      | error m =>
        simp only [applyGo, hf, Bool.false_eq_true, if_false]
        rw [ih ans fs1 i (errs ++ [ErrRec.plain m])
              (att ++ [(t, Except.error m)]),
            ih ans fs1 0 ([] ++ [ErrRec.plain m])
              ([] ++ [(t, Except.error m)])]
        simp
    | true =>
      rcases ans with _ | ⟨a, ans1⟩
      · have hy : isYes ((List.nil (α := Char)).headD ' ') = false := by decide
        have ha : isAbort ((List.nil (α := Char)).headD ' ') = false := by
          decide
        simp only [applyGo, hy, ha, Bool.false_eq_true, if_false, List.tail]
        rw [ih [] fs i errs att, ih [] fs 0 [] []]
        simp
      · have hhd : (a :: ans1).headD ' ' = a := rfl
        have htl : (a :: ans1).tail = ans1 := rfl
        by_cases hy : isYes a
        · cases r with
          | ok u =>
            cases u
            simp only [applyGo, hhd, htl, hf, hy, if_true]
            rw [ih ans1 fs1 (i + 1) errs (att ++ [(t, Except.ok ())]),
                ih ans1 fs1 (0 + 1) [] ([] ++ [(t, Except.ok ())])]
            simp [Nat.add_assoc, Nat.add_comm, Nat.add_left_comm]
          | error m =>
            simp only [applyGo, hhd, htl, hf, hy, if_true]
            rw [ih ans1 fs1 i (errs ++ [ErrRec.detailed fn t m])
                  (att ++ [(t, Except.error m)]),
                ih ans1 fs1 0 ([] ++ [ErrRec.detailed fn t m])
                  ([] ++ [(t, Except.error m)])]
            simp
        · by_cases ha : isAbort a
          · simp [applyGo, hhd, htl, hy, ha]
          · simp only [applyGo, hhd, htl, hy, ha, Bool.false_eq_true,
              if_false]
            rw [ih ans1 fs i errs att, ih ans1 fs 0 [] []]
            simp

theorem applyGo_false_runAll (fn : String)
    (func : σ → String → σ × Except String Unit) (ts : List String)
    (ans : List Char) (fs : σ) (i : Nat) (errs : List ErrRec)
    (att : List (String × Except String Unit)) :
    applyGo fn func false ts ans fs i errs att =
      ⟨(runAll func fs ts).1,
       i + ((runAll func fs ts).2.filter (fun te => exOk te.2)).length,
       errs ++ (runAll func fs ts).2.filterMap (recordOf false fn),
       ans, att ++ (runAll func fs ts).2⟩ := by
  induction ts generalizing fs i errs att with
  | nil => simp [applyGo, runAll]
  | cons t ts ih =>
    rcases hf : func fs t with ⟨fs1, r⟩
    cases r with
    | ok u =>
      cases u
      simp only [applyGo, hf, Bool.false_eq_true, if_false]
      rw [ih fs1 (i + 1) errs (att ++ [(t, Except.ok ())])]
      simp [runAll, hf, exOk, recordOf, Nat.add_assoc, Nat.add_comm,
        Nat.add_left_comm]
    | error m =>
      simp only [applyGo, hf, Bool.false_eq_true, if_false]
      rw [ih fs1 i (errs ++ [ErrRec.plain m]) (att ++ [(t, Except.error m)])]
      simp [runAll, hf, exOk, recordOf]

theorem runAll_map_fst (func : σ → String → σ × Except String Unit)
    (fs : σ) (ts : List String) :
    (runAll func fs ts).2.map Prod.fst = ts := by
  induction ts generalizing fs with
  | nil => simp [runAll]
  | cons t ts ih => simp [runAll, ih]

theorem applyGo_count_errors (fn : String)
    (func : σ → String → σ × Except String Unit) (cm : Bool)
    (ts : List String) (ans : List Char) (fs : σ) :
    (applyGo fn func cm ts ans fs 0 [] []).count
      = ((applyGo fn func cm ts ans fs 0 [] []).attempts.filter
          (fun te => exOk te.2)).length
    ∧ (applyGo fn func cm ts ans fs 0 [] []).errors
      = (applyGo fn func cm ts ans fs 0 [] []).attempts.filterMap
          (recordOf cm fn) := by
  induction ts generalizing ans fs with
  | nil => simp [applyGo]
  | cons t ts ih =>
    rcases hf : func fs t with ⟨fs1, r⟩
    cases cm with
    | false =>
      cases r with
      | ok u =>
        cases u
        simp only [applyGo, hf, Bool.false_eq_true, if_false]
        rw [applyGo_shift fn func false ts ans fs1 (0 + 1) []
          ([] ++ [(t, Except.ok ())])]
        rcases ih ans fs1 with ⟨ih1, ih2⟩
        refine ⟨?_, ?_⟩ <;> simp [ih1, ih2, exOk, recordOf]
        omega
      | error m =>
        simp only [applyGo, hf, Bool.false_eq_true, if_false]
        rw [applyGo_shift fn func false ts ans fs1 0 ([] ++ [ErrRec.plain m])
          ([] ++ [(t, Except.error m)])]
        rcases ih ans fs1 with ⟨ih1, ih2⟩
        simp [ih1, ih2, exOk, recordOf]
    | true =>
      rcases ans with _ | ⟨a, ans1⟩
      · have hy : isYes ((List.nil (α := Char)).headD ' ') = false := by decide
        have ha : isAbort ((List.nil (α := Char)).headD ' ') = false := by
          decide
        simp only [applyGo, hy, ha, Bool.false_eq_true, if_false, List.tail]
        exact ih [] fs
      · have hhd : (a :: ans1).headD ' ' = a := rfl
        have htl : (a :: ans1).tail = ans1 := rfl
        by_cases hy : isYes a
        · cases r with
          | ok u =>
            cases u
            simp only [applyGo, hhd, htl, hf, hy, if_true]
            rw [applyGo_shift fn func true ts ans1 fs1 (0 + 1) []
              ([] ++ [(t, Except.ok ())])]
            rcases ih ans1 fs1 with ⟨ih1, ih2⟩
            refine ⟨?_, ?_⟩ <;> simp [ih1, ih2, exOk, recordOf]
            omega
          | error m =>
            simp only [applyGo, hhd, htl, hf, hy, if_true]
            rw [applyGo_shift fn func true ts ans1 fs1 0
              ([] ++ [ErrRec.detailed fn t m]) ([] ++ [(t, Except.error m)])]
            rcases ih ans1 fs1 with ⟨ih1, ih2⟩
            simp [ih1, ih2, exOk, recordOf]
        · by_cases ha : isAbort a
          · simp [applyGo, hhd, htl, hy, ha]
          · simp only [applyGo, hhd, htl, hy, ha, Bool.false_eq_true,
              if_false]
            exact ih ans1 fs

/-- C1: error isolation in the apply phase.  In non-confirm mode every
target of the list receives the operation attempt in order, each failing
target contributes exactly one bare-string error record (successes none),
and the success counter counts exactly the non-failing attempts; in
confirm mode a Yes-answered failing target contributes exactly one
`(action-name, target, message)` tuple record and the loop continues with
the remaining targets. -/
theorem C1_apply_error_isolation (fn : String)
    (func : σ → String → σ × Except String Unit) (ts : List String)
    (ans : List Char) (fs : σ) :
    ((applyGo fn func false ts ans fs 0 [] []).attempts.map Prod.fst = ts
     ∧ (applyGo fn func false ts ans fs 0 [] []).errors
        = (applyGo fn func false ts ans fs 0 [] []).attempts.filterMap
            (recordOf false fn)
     ∧ (applyGo fn func false ts ans fs 0 [] []).count
        = ((applyGo fn func false ts ans fs 0 [] []).attempts.filter
            (fun te => exOk te.2)).length
     ∧ (applyGo fn func false ts ans fs 0 [] []).fs = (runAll func fs ts).1)
    ∧ (∀ t more fs1 m i errs att a ans1, isYes a →
        func fs t = (fs1, Except.error m) →
        applyGo fn func true (t :: more) (a :: ans1) fs i errs att
          = applyGo fn func true more ans1 fs1 i
              (errs ++ [ErrRec.detailed fn t m])
              (att ++ [(t, Except.error m)])) := by
  constructor
  · rw [applyGo_false_runAll fn func ts ans fs 0 [] []]
    refine ⟨?_, ?_, ?_, rfl⟩
    · simp [runAll_map_fst]
    · simp
    · simp
  · intro t more fs1 m i errs att a ans1 hy hf
    simp [applyGo, hy, hf]

theorem C1_witness :
    ((applyGo "_delete"
        (fun (u : Unit) t =>
          (u, if t = "T3" then Except.error "boom" else Except.ok ()))
        false ["T1", "T2", "T3", "T4", "T5"] [] () 0 [] []).attempts.map
          Prod.fst = ["T1", "T2", "T3", "T4", "T5"]
     ∧ (applyGo "_delete"
        (fun (u : Unit) t =>
          (u, if t = "T3" then Except.error "boom" else Except.ok ()))
        false ["T1", "T2", "T3", "T4", "T5"] [] () 0 [] []).errors
        = [ErrRec.plain "boom"])
    ∧ applyGo "_delete"
        (fun (u : Unit) t =>
          (u, if t = "T3" then Except.error "boom" else Except.ok ()))
        true ["T3", "T4"] ['y', 'y'] () 0 [] []
      = applyGo "_delete"
          (fun (u : Unit) t =>
            (u, if t = "T3" then Except.error "boom" else Except.ok ()))
          true ["T4"] ['y'] () 0 [ErrRec.detailed "_delete" "T3" "boom"]
          [("T3", Except.error "boom")] := by
  refine ⟨⟨?_, ?_⟩, ?_⟩
  · exact (C1_apply_error_isolation "_delete"
      (fun (u : Unit) t =>
        (u, if t = "T3" then Except.error "boom" else Except.ok ()))
      ["T1", "T2", "T3", "T4", "T5"] [] ()).1.1
  · rw [(C1_apply_error_isolation "_delete"
      (fun (u : Unit) t =>
        (u, if t = "T3" then Except.error "boom" else Except.ok ()))
      ["T1", "T2", "T3", "T4", "T5"] [] ()).1.2.1]
    decide
  · exact (C1_apply_error_isolation "_delete"
      (fun (u : Unit) t =>
        (u, if t = "T3" then Except.error "boom" else Except.ok ()))
      [] [] ()).2 "T3" ["T4"] () "boom" 0 [] [] 'y' ['y'] (by decide)
      (by decide)

/-- C6: per-item confirmation protocol of `_apply` with `confirm=True`:
a Yes answer invokes the operation on the current target now, an Abort
answer stops the whole loop immediately (leaving state and records as they
are), any other answer skips the target and continues; in particular with
three targets and answers Yes (succeeding) then Abort, exactly one
operation is applied, the loop stops, the third target is never touched
and no error is recorded for the skipped targets. -/
theorem C6_per_item_confirmation (fn : String)
    (func : σ → String → σ × Except String Unit) :
    (∀ t ts a ans fs fs1 i errs att, isYes a →
      func fs t = (fs1, Except.ok ()) →
      applyGo fn func true (t :: ts) (a :: ans) fs i errs att
        = applyGo fn func true ts ans fs1 (i + 1) errs
            (att ++ [(t, Except.ok ())]))
    ∧ (∀ t ts a ans fs i errs att, ¬ isYes a → isAbort a →
      applyGo fn func true (t :: ts) (a :: ans) fs i errs att
        = ⟨fs, i, errs, ans, att⟩)
    ∧ (∀ t ts a ans fs i errs att, ¬ isYes a → ¬ isAbort a →
      applyGo fn func true (t :: ts) (a :: ans) fs i errs att
        = applyGo fn func true ts ans fs i errs att)
    ∧ (∀ t1 t2 t3 rest fs fs1, func fs t1 = (fs1, Except.ok ()) →
      applyGo fn func true [t1, t2, t3] ('y' :: 'a' :: rest) fs 0 [] []
        = ⟨fs1, 1, [], rest, [(t1, Except.ok ())]⟩) := by
  refine ⟨?_, ?_, ?_, ?_⟩
  · intro t ts a ans fs fs1 i errs att hy hf
    simp [applyGo, hy, hf]
  · intro t ts a ans fs i errs att hy ha
    simp [applyGo, hy, ha]
  · intro t ts a ans fs i errs att hy ha
    simp [applyGo, hy, ha]
  · intro t1 t2 t3 rest fs fs1 hf
    have hy : isYes 'y' = true := by decide
    have hny : isYes 'a' = false := by decide
    have hab : isAbort 'a' = true := by decide
    simp [applyGo, hy, hny, hab, hf]

theorem C6_witness :
    applyGo "_delete" (fun (n : Nat) _ => (n + 1, Except.ok ())) true
      ["T1", "T2", "T3"] ['y', 'a'] 0 0 [] []
      = ⟨1, 1, [], [], [("T1", Except.ok ())]⟩
    ∧ applyGo "_delete" (fun (n : Nat) _ => (n + 1, Except.ok ())) true
        ["T1", "T2"] ['n', 'y'] 5 0 [] []
      = applyGo "_delete" (fun (n : Nat) _ => (n + 1, Except.ok ())) true
          ["T2"] ['y'] 5 0 [] []
    ∧ applyGo "_delete" (fun (n : Nat) _ => (n + 1, Except.ok ())) true
        ["T1", "T2"] ['A', 'y'] 5 2 [] []
      = ⟨5, 2, [], ['y'], []⟩ :=
  ⟨(C6_per_item_confirmation "_delete"
      (fun (n : Nat) _ => (n + 1, Except.ok ()))).2.2.2 "T1" "T2" "T3" [] 0 1
      rfl,
   (C6_per_item_confirmation "_delete"
      (fun (n : Nat) _ => (n + 1, Except.ok ()))).2.2.1 "T1" ["T2"] 'n' ['y']
      5 0 [] [] (by decide) (by decide),
   (C6_per_item_confirmation "_delete"
      (fun (n : Nat) _ => (n + 1, Except.ok ()))).2.1 "T1" ["T2"] 'A' ['y']
      5 2 [] [] (by decide) (by decide)⟩

/-- C9 (implicit): a path that at apply time is neither a regular file nor
a directory makes `_delete` fall through both branches and return
normally, so inside the apply loop it produces no error record and is
counted as a successful application. -/
theorem C9_vanished_target_counts_as_success (fs : FsMap) (p : String)
    (h : fs p = none) :
    deleteOp fs p = (fs, Except.ok ())
    ∧ ∀ fn ans i errs att,
        applyGo fn deleteOp false [p] ans fs i errs att
          = ⟨fs, i + 1, errs, ans, att ++ [(p, Except.ok ())]⟩ := by
  have h1 : deleteOp fs p = (fs, Except.ok ()) := by
    simp [deleteOp, isFileAt, isDirAt, h]
  refine ⟨h1, fun fn ans i errs att => ?_⟩
  simp [applyGo, h1]

theorem C9_witness :
    deleteOp (fun _ => none) "gone" = ((fun _ => none : FsMap), Except.ok ())
    ∧ applyGo "_delete" deleteOp false ["gone"] [] (fun _ => none) 0 [] []
      = ⟨(fun _ => none : FsMap), 0 + 1, [], [], [("gone", Except.ok ())]⟩ :=
  ⟨(C9_vanished_target_counts_as_success (fun _ => none) "gone" rfl).1,
   (C9_vanished_target_counts_as_success (fun _ => none) "gone" rfl).2
     "_delete" [] 0 [] []⟩

/-- C7 counterexample: with two failing targets the apply phase logs the
error-section header once before *each* recorded error (twice in total),
not once followed by the list, refuting "one error-section header". -/
theorem C7_counterexample :
    (applyModel "_delete" "Deleted"
        (fun (u : Unit) t => (u, Except.error ("e" ++ t))) false 0
        ["a", "b"] [] ()).logs
      = [LogMsg.info noActionMsg,
         LogMsg.error errorHeader, LogMsg.errorRec (ErrRec.plain "ea"),
         LogMsg.error errorHeader, LogMsg.errorRec (ErrRec.plain "eb")]
    ∧ ((applyModel "_delete" "Deleted"
        (fun (u : Unit) t => (u, Except.error ("e" ++ t))) false 0
        ["a", "b"] [] ()).logs.countP
          (fun m => m = LogMsg.error errorHeader)) = 2 := by
  decide

theorem reportLogs_eq (done : String) (cum i : Nat) (errs : List ErrRec) :
    reportLogs done cum i errs
      = (if i ≠ 0 then [LogMsg.info (summaryMsg done i (kbOf cum))]
         else [LogMsg.info noActionMsg])
        ++ (errs.map
            (fun e => [LogMsg.error errorHeader, LogMsg.errorRec e])).flatten := by
  unfold reportLogs
  rcases errs with _ | ⟨e, es⟩ <;> simp

/-- C7 (amended): after the apply loop, if at least one target succeeded
the engine logs one summary line `{verb} {count} items ({kilobytes}K)`
where the count is the number of successful applications, otherwise a
no-action-taken line; then the error-section header is logged once before
*each* recorded error (so the header appears as many times as there are
errors), each recorded error following its header. -/
theorem C7_post_apply_reporting (fn done : String)
    (func : σ → String → σ × Except String Unit) (cm : Bool) (cum : Nat)
    (ts : List String) (ans : List Char) (fs : σ) :
    (applyModel fn done func cm cum ts ans fs).logs
      = (if (applyModel fn done func cm cum ts ans fs).count ≠ 0
         then [LogMsg.info (summaryMsg done
                (applyModel fn done func cm cum ts ans fs).count (kbOf cum))]
         else [LogMsg.info noActionMsg])
        ++ ((applyModel fn done func cm cum ts ans fs).errors.map
            (fun e => [LogMsg.error errorHeader, LogMsg.errorRec e])).flatten
    ∧ (applyModel fn done func cm cum ts ans fs).count
        = ((applyModel fn done func cm cum ts ans fs).attempts.filter
            (fun te => exOk te.2)).length := by
  constructor
  · simp only [applyModel, reportLogs_eq]
  · exact (applyGo_count_errors fn func cm ts ans fs).1

/-- C4: matching law with negation under the suffix strategy.  The
`endswith` matcher is exactly `any(X.endswith(p) for p in P)`; the `show`
filter used by the walk succeeds exactly when `negate XOR raw_match(X)`;
and a (nonempty) path offered to `visit` is selected as a target exactly
under that same effective match. -/
theorem C4_matching_law (P : List String) (X : String) (negate : Bool)
    (getsize : String → Nat) (hX : X ≠ "") :
    endswithMatcher P X = P.any (fun p => strEndsWith X p)
    ∧ (∀ p, strEndsWith X p = true ↔ p.data <:+ X.data)
    ∧ (showFn negate (endswithMatcher P) X).isSome
        = (negate ^^ endswithMatcher P X)
    ∧ (visitModel (showFn negate (endswithMatcher P)) getsize "" [X]).map
        Prod.fst
        = (if negate ^^ endswithMatcher P X then [X] else []) := by
  refine ⟨rfl, ?_, ?_, ?_⟩
  · intro p
    unfold strEndsWith
    rw [beq_iff_eq, List.suffix_iff_eq_drop]
    exact ⟨fun h => h.symm, fun h => h.symm⟩
  · unfold showFn
    cases negate <;> cases h : endswithMatcher P X <;> simp [h]
  · unfold visitModel
    simp only [List.filterMap_cons, List.filterMap_nil]
    have hj : pathJoin "" X = X := by simp [pathJoin]
    rw [hj]
    unfold showFn
    cases negate <;> cases h : endswithMatcher P X <;> simp [h, hX]

theorem C4_witness :
    (endswithMatcher [".tmp"] "a.tmp"
      = [".tmp"].any (fun p => strEndsWith "a.tmp" p)
    ∧ (∀ p, strEndsWith "a.tmp" p = true ↔ p.data <:+ "a.tmp".data)
    ∧ (showFn false (endswithMatcher [".tmp"]) "a.tmp").isSome
        = (false ^^ endswithMatcher [".tmp"] "a.tmp")
    ∧ (visitModel (showFn false (endswithMatcher [".tmp"]))
        (fun _ => 0) "" ["a.tmp"]).map Prod.fst
        = (if false ^^ endswithMatcher [".tmp"] "a.tmp"
           then ["a.tmp"] else [])) :=
  C4_matching_law [".tmp"] "a.tmp" false (fun _ => 0) (by decide)

/-- C8: unknown action names fail loudly: any action name other than
`endswith_delete`, `glob_delete`, `convert` misses the action table, the
resulting `KeyError` escapes `run` uncaught, and no discovery, prompting
or apply work happens — the instance state, the operation state and the
answer stream are untouched, with only the working-directory line already
logged. -/
theorem C8_unknown_action {σ : Type} (fnm : String → String → Bool)
    (funcOf : ActionFunc → σ → String → σ × Except String Unit)
    (getsize : String → Nat) (w : List WalkTriple) (c : Cleaner)
    (action : String) (ans : List Char) (fs : σ)
    (h : action ≠ "endswith_delete" ∧ action ≠ "glob_delete" ∧
      action ≠ "convert") :
    actionsTable action = none
    ∧ runModel fnm funcOf getsize w c action ans fs
        = RunResult.keyError c fs [LogMsg.info (workingDirMsg c.path)] ans := by
  have ht : actionsTable action = none := by
    simp [actionsTable, h.1, h.2.1, h.2.2]
  exact ⟨ht, by simp [runModel, ht]⟩

theorem C8_witness :
    actionsTable "frobnicate" = none
    ∧ runModel (fun _ _ => false)
        (fun _ (u : Unit) _ => (u, Except.ok ())) (fun _ => 0) []
        (Cleaner.init "r" [] false) "frobnicate" ['y'] ()
      = RunResult.keyError (Cleaner.init "r" [] false) ()
          [LogMsg.info (workingDirMsg (Cleaner.init "r" [] false).path)]
          ['y'] :=
  C8_unknown_action (fun _ _ => false)
    (fun _ (u : Unit) _ => (u, Except.ok ())) (fun _ => 0) []
    (Cleaner.init "r" [] false) "frobnicate" ['y'] ()
    ⟨by decide, by decide, by decide⟩

/-- C3 (corrected): per-run state.  For every `run` on a known action, the
cumulative size is *not* reset: it ends as the prior value plus the sizes
discovered by this run; the target list is replaced by this run's results
whenever discovery finds at least one target, and is left holding its
previous (stale) value when discovery finds none. -/
theorem C3_state_across_runs {σ : Type} (fnm : String → String → Bool)
    (funcOf : ActionFunc → σ → String → σ × Except String Unit)
    (getsize : String → Nat) (w : List WalkTriple) (c : Cleaner)
    (action : String) (af : ActionFunc) (mn : String) (ans : List Char)
    (fs : σ) (ha : actionsTable action = some (af, mn)) :
    (runModel fnm funcOf getsize w c action ans fs).cleaner.cumSize
      = c.cumSize
        + ((walkModel (showFn c.negate (matchersTable c.patterns fnm mn))
            getsize w).map Prod.snd).sum
    ∧ ((walkModel (showFn c.negate (matchersTable c.patterns fnm mn))
          getsize w).map Prod.fst ≠ [] →
        (runModel fnm funcOf getsize w c action ans fs).cleaner.targets
          = (walkModel (showFn c.negate (matchersTable c.patterns fnm mn))
              getsize w).map Prod.fst)
    ∧ ((walkModel (showFn c.negate (matchersTable c.patterns fnm mn))
          getsize w).map Prod.fst = [] →
        (runModel fnm funcOf getsize w c action ans fs).cleaner.targets
          = c.targets) := by
  simp only [runModel, ha]
  by_cases h0 : (walkModel (showFn c.negate
      (matchersTable c.patterns fnm mn)) getsize w).map Prod.fst = []
  · simp [h0, RunResult.cleaner]
  · simp only [h0, Bool.false_eq_true, if_false, ite_false, if_neg h0]
    split_ifs <;> simp [RunResult.cleaner, h0]

theorem C3_counterexample :
    ((runModel (fun _ _ => false) (fun _ (u : Unit) _ => (u, Except.ok ()))
        (fun _ => 1024) [("r", [], ["ax"])]
        ((runModel (fun _ _ => false)
            (fun _ (u : Unit) _ => (u, Except.ok ())) (fun _ => 1024)
            [("r", [], ["ax"])] (Cleaner.init "r" ["x"] false)
            "endswith_delete" ['n'] ()).cleaner)
        "endswith_delete" ['n'] ()).cleaner).cumSize = 2048
    ∧ (2048 : Nat) ≠ 1024 := by
  constructor
  · decide
  · decide

theorem C3_witness :
    (runModel (fun _ _ => false) (fun _ (u : Unit) _ => (u, Except.ok ()))
        (fun _ => 1024) [("r", [], ["ax"])] (Cleaner.init "r" ["x"] false)
        "endswith_delete" ['n'] ()).cleaner.cumSize
      = (Cleaner.init "r" ["x"] false).cumSize
        + ((walkModel (showFn (Cleaner.init "r" ["x"] false).negate
            (matchersTable (Cleaner.init "r" ["x"] false).patterns
              (fun _ _ => false) "endswith")) (fun _ => 1024)
            [("r", [], ["ax"])]).map Prod.snd).sum :=
  (C3_state_across_runs (fun _ _ => false)
    (fun _ (u : Unit) _ => (u, Except.ok ())) (fun _ => 1024)
    [("r", [], ["ax"])] (Cleaner.init "r" ["x"] false) "endswith_delete"
    ActionFunc.delete "endswith" ['n'] () (by decide)).1

/-- C5: bulk confirmation protocol of `run`.  With a known action: if
discovery yields zero targets the engine logs the no-results message and
stops without consuming any prompt answer; otherwise it consumes exactly
one answer and dispatches three ways — Yes applies the operation to every
target unconditionally (no further answers consumed), Confirm runs the
apply phase in per-item confirmation mode, and any other answer applies
zero operations, logs the cancellation warning, and leaves the target list
populated with the discovered results but untouched. -/
theorem C5_bulk_confirmation {σ : Type} (fnm : String → String → Bool)
    (funcOf : ActionFunc → σ → String → σ × Except String Unit)
    (getsize : String → Nat) (w : List WalkTriple) (c : Cleaner)
    (action : String) (af : ActionFunc) (mn : String) (ans : List Char)
    (fs : σ) (hits : List (String × Nat))
    (ha : actionsTable action = some (af, mn))
    (hh : walkModel (showFn c.negate (matchersTable c.patterns fnm mn))
        getsize w = hits) :
    (hits.map Prod.fst = [] →
      runModel fnm funcOf getsize w c action ans fs
        = RunResult.ok
            ⟨c.path, c.patterns, c.negate, c.targets,
              c.cumSize + (hits.map Prod.snd).sum⟩ fs
            ([LogMsg.info (workingDirMsg c.path)]
              ++ walkLogsModel (showFn c.negate
                  (matchersTable c.patterns fnm mn)) getsize w
              ++ [LogMsg.info noResultsMsg]) ans)
    ∧ (∀ a ans1, ans = a :: ans1 → hits.map Prod.fst ≠ [] →
        (isYes a →
          runModel fnm funcOf getsize w c action ans fs
            = RunResult.ok
                ⟨c.path, c.patterns, c.negate, hits.map Prod.fst,
                  c.cumSize + (hits.map Prod.snd).sum⟩
                (applyModel (funcPyName af) (messagesTable (funcPyName af)).2
                  (funcOf af) false (c.cumSize + (hits.map Prod.snd).sum)
                  (hits.map Prod.fst) ans1 fs).fs
                ([LogMsg.info (workingDirMsg c.path)]
                  ++ walkLogsModel (showFn c.negate
                      (matchersTable c.patterns fnm mn)) getsize w
                  ++ (applyModel (funcPyName af)
                      (messagesTable (funcPyName af)).2 (funcOf af) false
                      (c.cumSize + (hits.map Prod.snd).sum)
                      (hits.map Prod.fst) ans1 fs).logs) ans1
            ∧ (applyModel (funcPyName af) (messagesTable (funcPyName af)).2
                (funcOf af) false (c.cumSize + (hits.map Prod.snd).sum)
                (hits.map Prod.fst) ans1 fs).attempts.map Prod.fst
              = hits.map Prod.fst)
        ∧ (¬ isYes a → isConfirmAns a →
          runModel fnm funcOf getsize w c action ans fs
            = RunResult.ok
                ⟨c.path, c.patterns, c.negate, hits.map Prod.fst,
                  c.cumSize + (hits.map Prod.snd).sum⟩
                (applyModel (funcPyName af) (messagesTable (funcPyName af)).2
                  (funcOf af) true (c.cumSize + (hits.map Prod.snd).sum)
                  (hits.map Prod.fst) ans1 fs).fs
                ([LogMsg.info (workingDirMsg c.path)]
                  ++ walkLogsModel (showFn c.negate
                      (matchersTable c.patterns fnm mn)) getsize w
                  ++ (applyModel (funcPyName af)
                      (messagesTable (funcPyName af)).2 (funcOf af) true
                      (c.cumSize + (hits.map Prod.snd).sum)
                      (hits.map Prod.fst) ans1 fs).logs)
                (applyModel (funcPyName af) (messagesTable (funcPyName af)).2
                  (funcOf af) true (c.cumSize + (hits.map Prod.snd).sum)
                  (hits.map Prod.fst) ans1 fs).rest)
        ∧ (¬ isYes a → ¬ isConfirmAns a →
          runModel fnm funcOf getsize w c action ans fs
            = RunResult.ok
                ⟨c.path, c.patterns, c.negate, hits.map Prod.fst,
                  c.cumSize + (hits.map Prod.snd).sum⟩ fs
                ([LogMsg.info (workingDirMsg c.path)]
                  ++ walkLogsModel (showFn c.negate
                      (matchersTable c.patterns fnm mn)) getsize w
                  ++ [LogMsg.warning cancelledMsg]) ans1)) := by
  constructor
  · intro h0
    simp only [runModel, ha]
    rw [hh]
    simp [h0]
  · intro a ans1 hans h0
    subst hans
    refine ⟨?_, ?_, ?_⟩
    · intro hy
      constructor
      · simp only [runModel, ha]
        rw [hh]
        simp [h0, hy]
        rw [show (applyModel (funcPyName af)
            (messagesTable (funcPyName af)).2 (funcOf af) false
            (c.cumSize + (hits.map Prod.snd).sum) (hits.map Prod.fst)
            ans1 fs).rest
            = (applyGo (funcPyName af) (funcOf af) false (hits.map Prod.fst)
                ans1 fs 0 [] []).rest from rfl]
        rw [applyGo_false_runAll]
      · rw [show (applyModel (funcPyName af)
            (messagesTable (funcPyName af)).2 (funcOf af) false
            (c.cumSize + (hits.map Prod.snd).sum) (hits.map Prod.fst)
            ans1 fs).attempts
            = (applyGo (funcPyName af) (funcOf af) false (hits.map Prod.fst)
                ans1 fs 0 [] []).attempts from rfl]
        rw [applyGo_false_runAll]
        simp [runAll_map_fst]
    · intro hy hc
      simp only [runModel, ha]
      rw [hh]
      simp [h0, hy, hc]
    · intro hy hc
      simp only [runModel, ha]
      rw [hh]
      simp [h0, hy, hc]

theorem C5_witness :
    (runModel (fun _ _ => false) (fun _ (u : Unit) _ => (u, Except.ok ()))
        (fun _ => 7) [("r", [], ["b.log"])] (Cleaner.init "r" ["x"] false)
        "endswith_delete" ['y'] ()
      = RunResult.ok
          ⟨"r", ["x"], false, [], 0 + ((([] : List (String × Nat)).map
            Prod.snd).sum)⟩ ()
          ([LogMsg.info (workingDirMsg "r")]
            ++ walkLogsModel (showFn false
                (matchersTable ["x"] (fun _ _ => false) "endswith"))
                (fun _ => 7) [("r", [], ["b.log"])]
            ++ [LogMsg.info noResultsMsg]) ['y'])
    ∧ (runModel (fun _ _ => false) (fun _ (u : Unit) _ => (u, Except.ok ()))
        (fun _ => 7) [("r", [], ["ax"])] (Cleaner.init "r" ["x"] false)
        "endswith_delete" ['n'] ()
      = RunResult.ok
          ⟨"r", ["x"], false, [("r/ax", 7)].map Prod.fst,
            0 + (([("r/ax", 7)].map Prod.snd).sum)⟩ ()
          ([LogMsg.info (workingDirMsg "r")]
            ++ walkLogsModel (showFn false
                (matchersTable ["x"] (fun _ _ => false) "endswith"))
                (fun _ => 7) [("r", [], ["ax"])]
            ++ [LogMsg.warning cancelledMsg]) []) := by
  constructor
  · exact (C5_bulk_confirmation (fun _ _ => false)
      (fun _ (u : Unit) _ => (u, Except.ok ())) (fun _ => 7)
      [("r", [], ["b.log"])] (Cleaner.init "r" ["x"] false)
      "endswith_delete" ActionFunc.delete "endswith" ['y'] () []
      (by decide) (by decide)).1 (by decide)
  · exact ((C5_bulk_confirmation (fun _ _ => false)
      (fun _ (u : Unit) _ => (u, Except.ok ())) (fun _ => 7)
      [("r", [], ["ax"])] (Cleaner.init "r" ["x"] false)
      "endswith_delete" ActionFunc.delete "endswith" ['n'] () [("r/ax", 7)]
      (by decide) (by decide)).2 'n' [] rfl (by decide)).2.2 (by decide)
      (by decide)

/-- C10 (implicit): on a freshly constructed instance, when the apply
phase runs (Yes or Confirm answer), the success summary's kilobyte figure
is `kbOf` of the sum of the on-disk sizes of *all* matches recorded during
discovery — for any operation outcomes and any per-item answers, so
skipped, failed or never-reached targets still contribute their size. -/
theorem C10_summary_kilobytes {σ : Type} (fnm : String → String → Bool)
    (funcOf : ActionFunc → σ → String → σ × Except String Unit)
    (getsize : String → Nat) (w : List WalkTriple) (path : String)
    (pats : List String) (neg : Bool) (action : String) (af : ActionFunc)
    (mn : String) (a : Char) (ans1 : List Char) (fs : σ) (cm : Bool)
    (hits : List (String × Nat))
    (ha : actionsTable action = some (af, mn))
    (hh : walkModel (showFn neg (matchersTable pats fnm mn)) getsize w
      = hits)
    (h0 : hits.map Prod.fst ≠ [])
    (hcm : (cm = false ∧ isYes a)
      ∨ (cm = true ∧ ¬ isYes a ∧ isConfirmAns a)) :
    runModel fnm funcOf getsize w (Cleaner.init path pats neg) action
        (a :: ans1) fs
      = RunResult.ok
          ⟨path, pats, neg, hits.map Prod.fst, (hits.map Prod.snd).sum⟩
          (applyModel (funcPyName af) (messagesTable (funcPyName af)).2
            (funcOf af) cm ((hits.map Prod.snd).sum) (hits.map Prod.fst)
            ans1 fs).fs
          ([LogMsg.info (workingDirMsg path)]
            ++ walkLogsModel (showFn neg (matchersTable pats fnm mn))
                getsize w
            ++ (applyModel (funcPyName af) (messagesTable (funcPyName af)).2
                (funcOf af) cm ((hits.map Prod.snd).sum) (hits.map Prod.fst)
                ans1 fs).logs)
          (applyModel (funcPyName af) (messagesTable (funcPyName af)).2
            (funcOf af) cm ((hits.map Prod.snd).sum) (hits.map Prod.fst)
            ans1 fs).rest
    ∧ ((applyModel (funcPyName af) (messagesTable (funcPyName af)).2
          (funcOf af) cm ((hits.map Prod.snd).sum) (hits.map Prod.fst)
          ans1 fs).count ≠ 0 →
        (applyModel (funcPyName af) (messagesTable (funcPyName af)).2
          (funcOf af) cm ((hits.map Prod.snd).sum) (hits.map Prod.fst)
          ans1 fs).logs.head?
          = some (LogMsg.info (summaryMsg (messagesTable (funcPyName af)).2
              (applyModel (funcPyName af) (messagesTable (funcPyName af)).2
                (funcOf af) cm ((hits.map Prod.snd).sum)
                (hits.map Prod.fst) ans1 fs).count
              (kbOf ((hits.map Prod.snd).sum))))) := by
  constructor
  · rcases hcm with ⟨hc, hy⟩ | ⟨hc, hy, hcf⟩
    · subst hc
      simp only [runModel, ha, Cleaner.init]
      rw [hh]
      simp [h0, hy]
    · subst hc
      simp only [runModel, ha, Cleaner.init]
      rw [hh]
      simp [h0, hy, hcf]
  · intro hcount
    rw [show (applyModel (funcPyName af) (messagesTable (funcPyName af)).2
        (funcOf af) cm ((hits.map Prod.snd).sum) (hits.map Prod.fst)
        ans1 fs).logs
        = reportLogs (messagesTable (funcPyName af)).2
            ((hits.map Prod.snd).sum)
            (applyModel (funcPyName af) (messagesTable (funcPyName af)).2
              (funcOf af) cm ((hits.map Prod.snd).sum) (hits.map Prod.fst)
              ans1 fs).count
            (applyModel (funcPyName af) (messagesTable (funcPyName af)).2
              (funcOf af) cm ((hits.map Prod.snd).sum) (hits.map Prod.fst)
              ans1 fs).errors from rfl]
    rw [reportLogs_eq]
    simp [hcount]

theorem C10_witness :
    (applyModel "_delete" "Deleted"
        (fun (u : Unit) t =>
          (u, if t = "r/ax" then Except.ok () else Except.error "E"))
        false ((([("r/ax", 1024), ("r/bx", 2048)] :
          List (String × Nat)).map Prod.snd).sum)
        (([("r/ax", 1024), ("r/bx", 2048)] :
          List (String × Nat)).map Prod.fst) [] ()).logs.head?
      = some (LogMsg.info (summaryMsg "Deleted"
          (applyModel "_delete" "Deleted"
            (fun (u : Unit) t =>
              (u, if t = "r/ax" then Except.ok () else Except.error "E"))
            false ((([("r/ax", 1024), ("r/bx", 2048)] :
              List (String × Nat)).map Prod.snd).sum)
            (([("r/ax", 1024), ("r/bx", 2048)] :
              List (String × Nat)).map Prod.fst) [] ()).count
          (kbOf ((([("r/ax", 1024), ("r/bx", 2048)] :
            List (String × Nat)).map Prod.snd).sum)))) :=
  (C10_summary_kilobytes (σ := Unit) (fun _ _ => false)
    (fun _ u t =>
      (u, if t = "r/ax" then Except.ok () else Except.error "E"))
    (fun p => if p = "r/ax" then 1024 else 2048) [("r", [], ["ax", "bx"])]
    "r" ["x"] false "endswith_delete" ActionFunc.delete "endswith" 'y' [] ()
    false [("r/ax", 1024), ("r/bx", 2048)] (by decide) (by decide)
    (by decide) (Or.inl ⟨rfl, by decide⟩)).2 (by decide)

theorem mem_translateNewlines : ∀ (l : List Nat) (c : Nat),
    c ∈ translateNewlines l → c ∈ l ∨ c = 10
  | [], c => by simp [translateNewlines]
  | [d], c => by
    by_cases h : d = 13 <;> simp [translateNewlines, h] <;> omega
  | d :: e :: rest, c => by
    by_cases h : d = 13
    · by_cases h2 : e = 10
      · intro hc
        rw [translateNewlines, if_pos h, if_pos h2] at hc
        rcases List.mem_cons.mp hc with rfl | hc
        · right; rfl
        · rcases mem_translateNewlines rest c hc with h3 | h3
          · exact Or.inl (by simp [h3])
          · exact Or.inr h3
      · intro hc
        rw [translateNewlines, if_pos h, if_neg h2] at hc
        rcases List.mem_cons.mp hc with rfl | hc
        · right; rfl
        · rcases mem_translateNewlines (e :: rest) c hc with h3 | h3
          · exact Or.inl (by simp [List.mem_cons.mp h3])
          · exact Or.inr h3
    · intro hc
      rw [translateNewlines, if_neg h] at hc
      rcases List.mem_cons.mp hc with rfl | hc
      · exact Or.inl (by simp)
      · rcases mem_translateNewlines (e :: rest) c hc with h3 | h3
        · exact Or.inl (by simp [List.mem_cons.mp h3])
        · exact Or.inr h3

theorem translateNewlines_no13 : ∀ l : List Nat, 13 ∉ translateNewlines l
  | [] => by simp [translateNewlines]
  | [c] => by
    by_cases h : c = 13
    · simp [translateNewlines, h]
    · simp only [translateNewlines, if_neg h, List.mem_singleton]
      omega
  | c :: d :: rest => by
    by_cases h : c = 13
    · by_cases h2 : d = 10
      · rw [translateNewlines, if_pos h, if_pos h2]
        intro hc
        rcases List.mem_cons.mp hc with h3 | h3
        · omega
        · exact translateNewlines_no13 rest h3
      · rw [translateNewlines, if_pos h, if_neg h2]
        intro hc
        rcases List.mem_cons.mp hc with h3 | h3
        · omega
        · exact translateNewlines_no13 (d :: rest) h3
    · rw [translateNewlines, if_neg h]
      intro hc
      rcases List.mem_cons.mp hc with h3 | h3
      · exact h h3.symm
      · exact translateNewlines_no13 (d :: rest) h3

theorem translateNewlines_eq_self : ∀ l : List Nat, 13 ∉ l →
    translateNewlines l = l
  | [], _ => rfl
  | [c], h => by
    have hc : ¬ c = 13 := fun hh => h (by simp [hh])
    simp [translateNewlines, hc]
  | c :: d :: rest, h => by
    have hc : ¬ c = 13 := fun hh => h (by simp [hh])
    have h2 : 13 ∉ d :: rest := fun hh => h (List.mem_cons_of_mem c hh)
    rw [translateNewlines, if_neg hc, translateNewlines_eq_self (d :: rest) h2]

theorem readlinesModel_ne_nil (c : Nat) (rest : List Nat) :
    readlinesModel (c :: rest) ≠ [] := by
  by_cases h : c = 10
  · simp [readlinesModel, h]
  · simp only [readlinesModel, h, if_false]
    rcases hr : readlinesModel rest with _ | ⟨l1, ls⟩ <;> simp

theorem readlinesModel_flatten : ∀ l : List Nat,
    (readlinesModel l).flatten = l
  | [] => rfl
  | c :: rest => by
    by_cases h : c = 10
    · subst h
      simp [readlinesModel, readlinesModel_flatten rest]
    · simp only [readlinesModel, h, if_false]
      rcases hr : readlinesModel rest with _ | ⟨l1, ls⟩
      · have hrest : rest = [] := by
          rcases rest with _ | ⟨d, rest1⟩
          · rfl
          · exact absurd hr (readlinesModel_ne_nil d rest1)
        subst hrest
        simp
      · have hf := readlinesModel_flatten rest
        rw [hr] at hf
        simp only [List.flatten_cons] at hf ⊢
        simp [hf]

theorem readlinesModel_shape : ∀ (x : List Nat), ∀ l ∈ readlinesModel x,
    ∃ wl, 10 ∉ wl ∧ (l = wl ++ [10] ∨ l = wl)
  | [] => by simp [readlinesModel]
  | c :: rest => by
    intro l hl
    by_cases h : c = 10
    · rw [readlinesModel, if_pos h] at hl
      rcases List.mem_cons.mp hl with rfl | hl
      · exact ⟨[], by simp⟩
      · exact readlinesModel_shape rest l hl
    · rw [readlinesModel, if_neg h] at hl
      rcases hr : readlinesModel rest with _ | ⟨l1, ls⟩
      · rw [hr] at hl
        rcases List.mem_cons.mp hl with rfl | hl
        · refine ⟨[c], ?_, Or.inr rfl⟩
          simp only [List.mem_singleton]
          omega
        · simp at hl
      · rw [hr] at hl
        rcases List.mem_cons.mp hl with rfl | hl
        · obtain ⟨wl, h10, hcase⟩ :=
            readlinesModel_shape rest l1
              (by rw [hr]; exact List.mem_cons_self l1 ls)
          refine ⟨c :: wl, ?_, ?_⟩
          · intro hh
            rcases List.mem_cons.mp hh with h3 | h3
            · exact h h3.symm
            · exact h10 h3
          · rcases hcase with h1 | h1
            · exact Or.inl (by rw [h1]; rfl)
            · exact Or.inr (by rw [h1])
        · exact readlinesModel_shape rest l
            (by rw [hr]; exact List.mem_cons_of_mem l1 hl)

theorem readlinesModel_append (wl : List Nat) (rest : List Nat)
    (h : 10 ∉ wl) :
    readlinesModel (wl ++ 10 :: rest) = (wl ++ [10]) :: readlinesModel rest := by
  induction wl with
  | nil => simp [readlinesModel]
  | cons c w ih =>
    have hc : ¬ c = 10 := fun hh => h (by simp [hh])
    have hw : 10 ∉ w := fun hh => h (List.mem_cons_of_mem c hh)
    simp only [List.cons_append, readlinesModel, hc, if_false]
    rw [show List.append w (10 :: rest) = w ++ 10 :: rest from rfl, ih hw]

theorem rstripModel_append_ten (wl : List Nat) :
    rstripModel (wl ++ [10]) = rstripModel wl := by
  have h10 : isPySpace 10 = true := by decide
  simp [rstripModel, List.dropWhile_cons, h10]

theorem dropWhile_self (p : Nat → Bool) : ∀ x : List Nat,
    (x.dropWhile p).dropWhile p = x.dropWhile p
  | [] => rfl
  | c :: rest => by
    by_cases h : p c
    · simp [List.dropWhile_cons, h, dropWhile_self p rest]
    · simp [List.dropWhile_cons, h]

theorem rstripModel_idem (l : List Nat) :
    rstripModel (rstripModel l) = rstripModel l := by
  simp [rstripModel, dropWhile_self]

theorem mem_rstripModel (c : Nat) (l : List Nat) (h : c ∈ rstripModel l) :
    c ∈ l := by
  unfold rstripModel at h
  rw [List.mem_reverse] at h
  have h2 := (List.dropWhile_sublist (p := isPySpace) (l := l.reverse)).subset h
  exact List.mem_reverse.mp h2

theorem mem_cleanText_translate (c : Nat) (cs : List Nat)
    (h : c ∈ cleanText cs) : c ∈ translateNewlines cs ∨ c = 10 := by
  unfold cleanText at h
  rw [List.mem_flatten] at h
  obtain ⟨blk, hblk, hc⟩ := h
  rw [List.mem_map] at hblk
  obtain ⟨l, hl, rfl⟩ := hblk
  rcases List.mem_append.mp hc with h1 | h1
  · have h2 : c ∈ l := mem_rstripModel c l h1
    left
    rw [← readlinesModel_flatten (translateNewlines cs)]
    exact List.mem_flatten.mpr ⟨l, hl, h2⟩
  · right
    simpa using h1

theorem mem_cleanText (c : Nat) (cs : List Nat) (h : c ∈ cleanText cs) :
    c ∈ cs ∨ c = 10 := by
  rcases mem_cleanText_translate c cs h with h1 | h1
  · exact mem_translateNewlines cs c h1
  · exact Or.inr h1

theorem cleanText_no13 (cs : List Nat) : 13 ∉ cleanText cs := by
  intro h
  rcases mem_cleanText_translate 13 cs h with h1 | h1
  · exact translateNewlines_no13 cs h1
  · omega

theorem readlines_of_blocks : ∀ (ws : List (List Nat)),
    (∀ w ∈ ws, 10 ∉ w) →
    readlinesModel ((ws.map (fun w => w ++ [10])).flatten)
      = ws.map (fun w => w ++ [10])
  | [], _ => rfl
  | w :: ws, h => by
    have hw : 10 ∉ w := h w (List.mem_cons_self w ws)
    have hws : ∀ v ∈ ws, 10 ∉ v := fun v hv => h v (List.mem_cons_of_mem w hv)
    simp only [List.map_cons, List.flatten_cons]
    rw [show w ++ [10] ++ (ws.map (fun w => w ++ [10])).flatten
        = w ++ 10 :: (ws.map (fun w => w ++ [10])).flatten by simp]
    rw [readlinesModel_append w _ hw, readlines_of_blocks ws hws]

theorem cleanText_blocks_fixed (ws : List (List Nat))
    (h10 : ∀ w ∈ ws, 10 ∉ w) (h13 : ∀ w ∈ ws, 13 ∉ w)
    (hr : ∀ w ∈ ws, rstripModel w = w) :
    cleanText ((ws.map (fun w => w ++ [10])).flatten)
      = (ws.map (fun w => w ++ [10])).flatten := by
  have hno13 : 13 ∉ (ws.map (fun w => w ++ [10])).flatten := by
    intro h
    rw [List.mem_flatten] at h
    obtain ⟨blk, hblk, hc⟩ := h
    rw [List.mem_map] at hblk
    obtain ⟨wl, hw, rfl⟩ := hblk
    rcases List.mem_append.mp hc with h1 | h1
    · exact h13 wl hw h1
    · simp at h1
  unfold cleanText
  rw [translateNewlines_eq_self _ hno13, readlines_of_blocks ws h10,
    List.map_map]
  have hmap : ws.map ((fun l => rstripModel l ++ [10])
        ∘ (fun w => w ++ [10]))
      = ws.map (fun w => w ++ [10]) :=
    List.map_congr_left (fun w hw => by
      simp only [Function.comp]
      rw [rstripModel_append_ten, hr w hw])
  rw [hmap]

theorem cleanText_idem (cs : List Nat) :
    cleanText (cleanText cs) = cleanText cs := by
  have hshape := readlinesModel_shape (translateNewlines cs)
  have hct : cleanText cs
      = (((readlinesModel (translateNewlines cs)).map rstripModel).map
          (fun w => w ++ [10])).flatten := by
    unfold cleanText
    rw [List.map_map]
    rfl
  rw [hct]
  apply cleanText_blocks_fixed
  · intro w hw
    rw [List.mem_map] at hw
    obtain ⟨l, hl2, rfl⟩ := hw
    obtain ⟨wl, h10, hcase⟩ := hshape l hl2
    rcases hcase with h1 | h1
    · rw [h1, rstripModel_append_ten]
      exact fun hh => h10 (mem_rstripModel 10 wl hh)
    · rw [h1]
      exact fun hh => h10 (mem_rstripModel 10 wl hh)
  · intro w hw
    rw [List.mem_map] at hw
    obtain ⟨l, hl2, rfl⟩ := hw
    intro hh
    have h1 : 13 ∈ l := mem_rstripModel 13 l hh
    have h2 : 13 ∈ translateNewlines cs := by
      rw [← readlinesModel_flatten (translateNewlines cs)]
      exact List.mem_flatten.mpr ⟨l, hl2, h1⟩
    exact translateNewlines_no13 cs h2
  · intro w hw
    rw [List.mem_map] at hw
    obtain ⟨l, hl2, rfl⟩ := hw
    exact rstripModel_idem l

theorem cp1252DecodeByte_ascii (b : Nat) (h : b < 128) :
    cp1252DecodeByte b = some b := by
  simp [cp1252DecodeByte, h]

theorem cp1252Decode_ascii : ∀ (bs : List Nat), (∀ b ∈ bs, b < 128) →
    cp1252Decode bs = some bs
  | [], _ => rfl
  | b :: rest, h => by
    rw [cp1252Decode, cp1252DecodeByte_ascii b (h b (by simp)),
      cp1252Decode_ascii rest (fun x hx => h x (by simp [hx]))]

theorem utf8EncodeCp_ascii (c : Nat) (h : c < 128) : utf8EncodeCp c = [c] := by
  simp [utf8EncodeCp, h]

theorem utf8Encode_ascii : ∀ (cs : List Nat), (∀ c ∈ cs, c < 128) →
    utf8Encode cs = cs
  | [], _ => rfl
  | c :: rest, h => by
    have ih := utf8Encode_ascii rest (fun x hx => h x (by simp [hx]))
    simp only [utf8Encode, List.map_cons, List.flatten_cons] at ih ⊢
    rw [utf8EncodeCp_ascii c (h c (by simp)), ih]
    rfl

/-- C2 counterexample: the file consisting of the single byte 0xE9 (cp1252
`é`).  One application yields the UTF-8 bytes C3 A9 0A; a second
application re-reads those bytes as cp1252 (`Ã©`) and re-encodes them as
C3 83 C2 A9 0A — the first output is not a fixed point, so the operation
is not idempotent on every file content. -/
theorem C2_counterexample :
    cleanEndings [233] = some [195, 169, 10]
    ∧ cleanEndings [195, 169, 10] = some [195, 131, 194, 169, 10]
    ∧ ([195, 131, 194, 169, 10] : List Nat) ≠ [195, 169, 10] := by
  refine ⟨by decide, by decide, by decide⟩

/-- C2 (amended): `_clean_endings` is idempotent on ASCII content: for
every file whose bytes are all below 0x80, the output of one application
is a fixed point of the operation (the underlying text normalization is
idempotent for arbitrary content; only the cp1252-read/UTF-8-write
transcode breaks the fixed point, and it is the identity on ASCII). -/
theorem C2_clean_endings_ascii_idempotent (bs out : List Nat)
    (hb : ∀ b ∈ bs, b < 128) (h : cleanEndings bs = some out) :
    cleanEndings out = some out := by
  have hd : cp1252Decode bs = some bs := cp1252Decode_ascii bs hb
  rw [cleanEndings, hd] at h
  have h2 : some (utf8Encode (cleanText bs)) = some out := h
  have hct : ∀ c ∈ cleanText bs, c < 128 := by
    intro c hc
    rcases mem_cleanText c bs hc with h1 | h1
    · exact hb c h1
    · omega
  have hu : utf8Encode (cleanText bs) = cleanText bs := utf8Encode_ascii _ hct
  rw [hu] at h2
  have hout : cleanText bs = out := Option.some.inj h2
  subst hout
  rw [cleanEndings, cp1252Decode_ascii _ hct]
  show some (utf8Encode (cleanText (cleanText bs))) = some (cleanText bs)
  rw [cleanText_idem, utf8Encode_ascii _ hct]

theorem C2_witness :
    cleanEndings [97, 13, 10, 98] = some [97, 10, 98, 10]
    ∧ cleanEndings [97, 10, 98, 10] = some [97, 10, 98, 10] :=
  ⟨by decide,
   C2_clean_endings_ascii_idempotent [97, 13, 10, 98] [97, 10, 98, 10]
     (by decide) (by decide)⟩
